import Mathlib

set_option maxRecDepth 100000

/-!
Formal model of the polars-network CIDR containment plugin
(src/expressions.rs), together with an executable model of its parsing
dependency (the `ipnetwork` crate built on the Rust standard library
address parsers).  Addresses are modelled as `Nat` values below `2 ^ 32`
(IPv4) or `2 ^ 128` (IPv6); columns are lists of optional strings; the
fallible column operations return `Except`.
-/

/-- Split a character list on a separator character; models Rust
`str::split(sep)` (always returns at least one piece). -/
def splitOnChar (sep : Char) : List Char → List (List Char)
  | [] => [[]]
  | c :: cs =>
    if c = sep then [] :: splitOnChar sep cs
    else
      match splitOnChar sep cs with
      | [] => [[c]]
      | r :: rs => (c :: r) :: rs

/-- Does the character list contain two adjacent colons? -/
def hasDoubleColon : List Char → Bool
  | ':' :: ':' :: _ => true
  | _ :: cs => hasDoubleColon cs
  | [] => false

/-- Split at the first occurrence of two adjacent colons, when present. -/
def splitDoubleColon : List Char → Option (List Char × List Char)
  | ':' :: ':' :: rest => some ([], rest)
  | c :: cs => (splitDoubleColon cs).map (fun p => (c :: p.1, p.2))
  | [] => none

/-- ASCII decimal digit (code points 48 to 57), as checked by the Rust
standard library address parsers. -/
def isDigitChar (c : Char) : Bool :=
  48 ≤ c.toNat && c.toNat ≤ 57

/-- ASCII hexadecimal digit, as checked by the Rust standard library
IPv6 parser. -/
def isHexChar (c : Char) : Bool :=
  (48 ≤ c.toNat && c.toNat ≤ 57) ||
    (97 ≤ c.toNat && c.toNat ≤ 102) ||
    (65 ≤ c.toNat && c.toNat ≤ 70)

/-- Value of a hexadecimal digit character. -/
def hexVal (c : Char) : Nat :=
  if c.toNat ≤ 57 then c.toNat - 48
  else if c.toNat ≤ 70 then c.toNat - 55
  else c.toNat - 87

/-- Models the Rust standard library IPv4 octet parser: one to three
decimal digits, no leading zero, value at most 255. -/
def parseOctet (cs : List Char) : Option Nat :=
  if cs = [] then none
  else if ¬ (cs.all isDigitChar) then none
  else if 3 < cs.length then none
  else if 1 < cs.length ∧ cs.head? = some '0' then none
  else if cs.foldl (fun a c => a * 10 + (c.toNat - 48)) 0 ≤ 255 then
    some (cs.foldl (fun a c => a * 10 + (c.toNat - 48)) 0)
  else none

/-- Models the decimal parse of a CIDR prefix-length field
(`str::parse::<u8>` followed by the crate's range check, which is done
by the caller here). -/
def parseDecimal (cs : List Char) : Option Nat :=
  if cs = [] then none
  else if cs.all isDigitChar then
    some (cs.foldl (fun a c => a * 10 + (c.toNat - 48)) 0)
  else none

/-- Models the Rust standard library IPv6 group parser: one to four
hexadecimal digits. -/
def parseHexGroup (cs : List Char) : Option Nat :=
  if cs = [] then none
  else if ¬ (cs.all isHexChar) then none
  else if 4 < cs.length then none
  else some (cs.foldl (fun a c => a * 16 + hexVal c) 0)

/-- Models `Ipv4Addr::from_str`: four dot-separated octets, returned as
one natural number below `2 ^ 32`. -/
def parseIpv4Addr (cs : List Char) : Option Nat :=
  match splitOnChar '.' cs with
  | [a, b, c, d] =>
    match parseOctet a, parseOctet b, parseOctet c, parseOctet d with
    | some x, some y, some z, some v =>
      some (x * 2 ^ 24 + y * 2 ^ 16 + z * 2 ^ 8 + v)
    | _, _, _, _ => none
  | _ => none

/-- Parse every piece as a hexadecimal group. -/
def parseHexGroups : List (List Char) → Option (List Nat)
  | [] => some []
  | p :: ps =>
    match parseHexGroup p, parseHexGroups ps with
    | some g, some gs => some (g :: gs)
    | _, _ => none

/-- Parse colon-separated pieces as 16-bit groups, allowing a trailing
embedded IPv4 address (which contributes two groups). -/
def parseGroups (parts : List (List Char)) : Option (List Nat) :=
  match parts.getLast? with
  | none => some []
  | some last =>
    if last.contains '.' then
      match parseIpv4Addr last, parseHexGroups parts.dropLast with
      | some v4, some gs => some (gs ++ [v4 / 2 ^ 16, v4 % 2 ^ 16])
      | _, _ => none
    else parseHexGroups parts

/-- Big-endian assembly of 16-bit groups into one natural number. -/
def groupsToNat (gs : List Nat) : Nat :=
  gs.foldl (fun a g => a * 2 ^ 16 + g) 0

/-- Models `Ipv6Addr::from_str`: eight groups, or a `::` compression
standing for at least one zero group, with an optional trailing
embedded IPv4 address. -/
def parseIpv6Addr (cs : List Char) : Option Nat :=
  match splitDoubleColon cs with
  | none =>
    match parseGroups (splitOnChar ':' cs) with
    | some gs => if gs.length = 8 then some (groupsToNat gs) else none
    | none => none
  | some (l, r) =>
    if hasDoubleColon r then none
    else
      match (if l = [] then some [] else parseHexGroups (splitOnChar ':' l)),
            (if r = [] then some [] else parseGroups (splitOnChar ':' r)) with
      | some lgs, some rgs =>
        if lgs.length + rgs.length ≤ 7 then
          some (groupsToNat
            (lgs ++ List.replicate (8 - (lgs.length + rgs.length)) 0 ++ rgs))
        else none
      | _, _ => none

/-- Models `ipnetwork::Ipv4Network`: the address exactly as constructed
by the parser (not normalised on construction) and the prefix length. -/
structure Ipv4Network where
  addr : Nat
  prefixLen : Nat
deriving DecidableEq

/-- Models `ipnetwork::Ipv6Network`. -/
structure Ipv6Network where
  addr : Nat
  prefixLen : Nat
deriving DecidableEq

/-- src/expressions.rs `ipv4_prefix_mask` (u32 arithmetic). -/
def ipv4_prefix_mask (p : Nat) : Nat :=
  if p = 0 then 0 else ((2 ^ 32 - 1) <<< (32 - p)) % 2 ^ 32

/-- src/expressions.rs `ipv6_prefix_mask` (u128 arithmetic). -/
def ipv6_prefix_mask (p : Nat) : Nat :=
  if p = 0 then 0 else ((2 ^ 128 - 1) <<< (128 - p)) % 2 ^ 128

/-- Models `Ipv4Network::network()`: the stored address masked down to
the network boundary at the stored prefix length. -/
def Ipv4Network.network (n : Ipv4Network) : Nat :=
  n.addr &&& ipv4_prefix_mask n.prefixLen

/-- Models `Ipv6Network::network()`. -/
def Ipv6Network.network (n : Ipv6Network) : Nat :=
  n.addr &&& ipv6_prefix_mask n.prefixLen

/-- Models `Ipv4Network::from_str`: `addr/len` with `len ≤ 32`, or a
bare address with implicit prefix length 32. -/
def parseIpv4Network (s : String) : Option Ipv4Network :=
  match splitOnChar '/' s.data with
  | [a] => (parseIpv4Addr a).map (fun x => ⟨x, 32⟩)
  | [a, p] =>
    match parseIpv4Addr a, parseDecimal p with
    | some x, some v => if v ≤ 32 then some ⟨x, v⟩ else none
    | _, _ => none
  | _ => none

/-- Models `Ipv6Network::from_str`. -/
def parseIpv6Network (s : String) : Option Ipv6Network :=
  match splitOnChar '/' s.data with
  | [a] => (parseIpv6Addr a).map (fun x => ⟨x, 128⟩)
  | [a, p] =>
    match parseIpv6Addr a, parseDecimal p with
    | some x, some v => if v ≤ 128 then some ⟨x, v⟩ else none
    | _, _ => none
  | _ => none

/-- Models `ipnetwork::IpNetwork`: tagged IPv4/IPv6 network value. -/
inductive IpNetwork where
  | V4 : Ipv4Network → IpNetwork
  | V6 : Ipv6Network → IpNetwork
deriving DecidableEq

/-- Models `IpNetwork::from_str`: try IPv4 first, then IPv6. -/
def parseIpNetwork (s : String) : Option IpNetwork :=
  match parseIpv4Network s with
  | some n => some (IpNetwork.V4 n)
  | none => (parseIpv6Network s).map IpNetwork.V6

/-- src/expressions.rs `parse_optional_network`. -/
def parse_optional_network (value : Option String) : Option IpNetwork :=
  value.bind (fun text => parseIpNetwork text)

/-- src/expressions.rs `contains_ipv4`. -/
def contains_ipv4 (supernet subnet : Ipv4Network) : Bool :=
  if supernet.prefixLen > subnet.prefixLen then false
  else
    Ipv4Network.network supernet ==
      (Ipv4Network.network subnet &&& ipv4_prefix_mask supernet.prefixLen)

/-- src/expressions.rs `contains_ipv6`. -/
def contains_ipv6 (supernet subnet : Ipv6Network) : Bool :=
  if supernet.prefixLen > subnet.prefixLen then false
  else
    Ipv6Network.network supernet ==
      (Ipv6Network.network subnet &&& ipv6_prefix_mask supernet.prefixLen)

/-- src/expressions.rs `network_contains`. -/
def network_contains (supernet subnet : IpNetwork) : Bool :=
  match supernet, subnet with
  | IpNetwork.V4 s, IpNetwork.V4 b => contains_ipv4 s b
  | IpNetwork.V6 s, IpNetwork.V6 b => contains_ipv6 s b
  | _, _ => false

/-- src/expressions.rs `NetworkArgument`. -/
inductive NetworkArgument where
  | Literal : IpNetwork → NetworkArgument
  | Series : List (Option IpNetwork) → NetworkArgument
deriving DecidableEq

/-- src/expressions.rs `NetworkArgument::value_at`. -/
def NetworkArgument.value_at : NetworkArgument → Nat → Option IpNetwork
  | NetworkArgument.Literal network, _ => some network
  | NetworkArgument.Series values, idx => (values[idx]?).bind (fun v => v)

/-- Models `PolarsError` as raised by this plugin (compute errors with a
message; the message detail of the underlying parse error is elided). -/
inductive PolarsError where
  | ComputeError : String → PolarsError
deriving DecidableEq

/-- src/expressions.rs `resolve_network_argument`. -/
def resolve_network_argument (series : List (Option String))
    (arg_name : String) (expected_len : Nat) :
    Except PolarsError NetworkArgument :=
  if series.length = 1 then
    match series.getD 0 none with
    | none => Except.error (PolarsError.ComputeError
        (arg_name ++ " argument cannot be null"))
    | some value =>
      match parseIpNetwork value with
      | none => Except.error (PolarsError.ComputeError
          ("invalid " ++ arg_name ++ " CIDR '" ++ value ++ "'"))
      | some network => Except.ok (NetworkArgument.Literal network)
  else if series.length = expected_len then
    Except.ok (NetworkArgument.Series (series.map parse_optional_network))
  else
    Except.error (PolarsError.ComputeError
      (arg_name ++ " argument must be a literal or expression with " ++
        toString expected_len ++ " rows (got " ++ toString series.length ++ ")"))

/-- src/expressions.rs `cidr_contains`: row value plays supernet, the
resolved "needle" argument plays subnet. -/
def cidr_contains (inputs : List (List (Option String))) :
    Except PolarsError (List (Option Bool)) :=
  match inputs with
  | [series, arg] =>
    match resolve_network_argument arg "needle" series.length with
    | Except.error e => Except.error e
    | Except.ok needle =>
      Except.ok (series.enum.map (fun p =>
        match parse_optional_network p.2, needle.value_at p.1 with
        | some network, some needle_network =>
          some (network_contains network needle_network)
        | _, _ => none))
  | _ => Except.error (PolarsError.ComputeError
      "cidr.contains expects 2 arguments (expression, cidr expression or literal)")

/-- src/expressions.rs `cidr_subnet_of`: row value plays subnet, the
resolved "supernet" argument plays supernet. -/
def cidr_subnet_of (inputs : List (List (Option String))) :
    Except PolarsError (List (Option Bool)) :=
  match inputs with
  | [series, arg] =>
    match resolve_network_argument arg "supernet" series.length with
    | Except.error e => Except.error e
    | Except.ok supernet =>
      Except.ok (series.enum.map (fun p =>
        match parse_optional_network p.2, supernet.value_at p.1 with
        | some network, some supernet_network =>
          some (network_contains supernet_network network)
        | _, _ => none))
  | _ => Except.error (PolarsError.ComputeError
      "cidr.subnet_of expects 2 arguments (expression, cidr expression or literal)")

/-- An IP address tagged with its family (spec-side semantic object). -/
inductive IpAddr where
  | V4 : Nat → IpAddr
  | V6 : Nat → IpAddr
deriving DecidableEq

/-- Spec-side meaning of an address lying inside a network: same family
and agreeing with the network boundary on the first prefix-length bits. -/
def specMember : IpAddr → IpNetwork → Prop
  | IpAddr.V4 a, IpNetwork.V4 n =>
    a < 2 ^ 32 ∧ a &&& ipv4_prefix_mask n.prefixLen = Ipv4Network.network n
  | IpAddr.V6 a, IpNetwork.V6 n =>
    a < 2 ^ 128 ∧ a &&& ipv6_prefix_mask n.prefixLen = Ipv6Network.network n
  | _, _ => False

/-- Spec-side meaning of "network `sub` is contained within network
`sup`": every address of `sub` is an address of `sup`. -/
def specSubnetOf (sub sup : IpNetwork) : Prop :=
  ∀ a : IpAddr, specMember a sub → specMember a sup

/-- Well-formedness of a network value (address within range, prefix
length within the family bit width). -/
def validNet : IpNetwork → Prop
  | IpNetwork.V4 n => n.addr < 2 ^ 32 ∧ n.prefixLen ≤ 32
  | IpNetwork.V6 n => n.addr < 2 ^ 128 ∧ n.prefixLen ≤ 128

/-- Same address family (spec-side). -/
def sameFamily : IpNetwork → IpNetwork → Bool
  | IpNetwork.V4 _, IpNetwork.V4 _ => true
  | IpNetwork.V6 _, IpNetwork.V6 _ => true
  | _, _ => false

instance {α β : Type} [DecidableEq α] [DecidableEq β] : DecidableEq (Except α β) :=
  fun x y =>
    match x, y with
    | Except.error a, Except.error b =>
      if h : a = b then isTrue (by rw [h]) else isFalse (by intro hc; cases hc; exact h rfl)
    | Except.ok a, Except.ok b =>
      if h : a = b then isTrue (by rw [h]) else isFalse (by intro hc; cases hc; exact h rfl)
    | Except.error _, Except.ok _ => isFalse (by intro hc; cases hc)
    | Except.ok _, Except.error _ => isFalse (by intro hc; cases hc)


/-! ### Bit-level facts about the prefix masks -/

/-- The common shape of the two prefix-mask functions, at bit width `w`. -/
def maskFn (w p : Nat) : Nat :=
  if p = 0 then 0 else ((2 ^ w - 1) <<< (w - p)) % 2 ^ w

theorem ipv4_prefix_mask_eq (p : Nat) : ipv4_prefix_mask p = maskFn 32 p := rfl

theorem ipv6_prefix_mask_eq (p : Nat) : ipv6_prefix_mask p = maskFn 128 p := rfl

theorem testBit_maskFn (w p i : Nat) (hp : p ≤ w) :
    (maskFn w p).testBit i = (decide (w - p ≤ i) && decide (i < w)) := by
  unfold maskFn
  by_cases h0 : p = 0
  · subst h0
    simp only [if_pos rfl, Nat.zero_testBit, Nat.sub_zero]
    rcases Nat.lt_or_ge i w with h | h
    · simp [Nat.not_le.2 h]
    · simp [Nat.not_lt.2 h]
  · rw [if_neg h0]
    rw [Nat.testBit_mod_two_pow, Nat.testBit_shiftLeft, Nat.testBit_two_pow_sub_one]
    by_cases hiw : i < w
    · by_cases hwp : w - p ≤ i
      · have hlt : i - (w - p) < w := by omega
        simp [hiw, hwp, hlt, ge_iff_le]
      · simp [hiw, hwp, ge_iff_le]
    · simp [hiw]

theorem maskFn_lt (w p : Nat) : maskFn w p < 2 ^ w := by
  unfold maskFn
  by_cases h0 : p = 0
  · simp [h0, Nat.two_pow_pos]
  · rw [if_neg h0]
    exact Nat.mod_lt _ (Nat.two_pow_pos w)

theorem land_maskFn_lt (a w p : Nat) : a &&& maskFn w p < 2 ^ w :=
  Nat.lt_of_le_of_lt Nat.and_le_right (maskFn_lt w p)

theorem land_land_self (a m : Nat) : (a &&& m) &&& m = a &&& m := by
  apply Nat.eq_of_testBit_eq
  intro i
  simp [Nat.testBit_and, Bool.and_assoc]

theorem maskFn_land_maskFn (w p q : Nat) (hpq : p ≤ q) (hq : q ≤ w) :
    maskFn w p &&& maskFn w q = maskFn w p := by
  apply Nat.eq_of_testBit_eq
  intro i
  rw [Nat.testBit_and, testBit_maskFn w p i (Nat.le_trans hpq hq),
    testBit_maskFn w q i hq]
  by_cases h1 : i < w
  · by_cases h2 : w - p ≤ i
    · have h3 : w - q ≤ i := by omega
      simp [h1, h2, h3]
    · simp [h2]
  · simp [h1]

/-- Core equivalence: the mask comparison performed by the code decides
exactly address-set inclusion of the subnet in the supernet, at any bit
width. -/
theorem mask_contains_iff (w pS pB aS aB : Nat)
    (hpS : pS ≤ w) (hpB : pB ≤ w) :
    (pS ≤ pB ∧ aS &&& maskFn w pS = (aB &&& maskFn w pB) &&& maskFn w pS)
    ↔ ∀ a, a < 2 ^ w → a &&& maskFn w pB = aB &&& maskFn w pB →
        a &&& maskFn w pS = aS &&& maskFn w pS := by
  constructor
  · rintro ⟨hle, heq⟩ a ha hmem
    have hmask : maskFn w pS &&& maskFn w pB = maskFn w pS :=
      maskFn_land_maskFn w pS pB hle hpB
    calc a &&& maskFn w pS
        = a &&& (maskFn w pB &&& maskFn w pS) := by
          rw [Nat.and_comm (maskFn w pB), hmask]
      _ = (a &&& maskFn w pB) &&& maskFn w pS := by rw [Nat.and_assoc]
      _ = (aB &&& maskFn w pB) &&& maskFn w pS := by rw [hmem]
      _ = aS &&& maskFn w pS := heq.symm
  · intro h
    have h0 := h (aB &&& maskFn w pB) (land_maskFn_lt _ _ _) (land_land_self _ _)
    refine ⟨?_, h0.symm⟩
    by_contra hgt
    push_neg at hgt
    have hbitw : w - pS < w := by omega
    have hbitB : (maskFn w pB).testBit (w - pS) = false := by
      rw [testBit_maskFn w pB _ hpB]
      simp only [Bool.and_eq_false_iff, decide_eq_false_iff_not, Nat.not_le, Nat.not_lt]
      left
      omega
    have hbitS : (maskFn w pS).testBit (w - pS) = true := by
      rw [testBit_maskFn w pS _ hpS]
      simp only [Bool.and_eq_true, decide_eq_true_eq]
      omega
    have ha1lt : (aB &&& maskFn w pB) ^^^ 2 ^ (w - pS) < 2 ^ w :=
      Nat.xor_lt_two_pow (land_maskFn_lt _ _ _)
        (Nat.pow_lt_pow_right (by norm_num) hbitw)
    have hmem1 : ((aB &&& maskFn w pB) ^^^ 2 ^ (w - pS)) &&& maskFn w pB =
        aB &&& maskFn w pB := by
      conv_rhs => rw [← land_land_self aB (maskFn w pB)]
      apply Nat.eq_of_testBit_eq
      intro i
      rw [Nat.testBit_and, Nat.testBit_and, Nat.testBit_xor, Nat.testBit_two_pow]
      by_cases hib : w - pS = i
      · subst hib
        rw [hbitB]
        simp
      · simp [hib]
    have h1 := h _ ha1lt hmem1
    have hcontra : ((aB &&& maskFn w pB) &&& maskFn w pS).testBit (w - pS) =
        (((aB &&& maskFn w pB) ^^^ 2 ^ (w - pS)) &&& maskFn w pS).testBit (w - pS) := by
      rw [h0, h1]
    simp only [Nat.testBit_and, Nat.testBit_xor, Nat.testBit_two_pow] at hcontra
    rw [hbitB, hbitS] at hcontra
    simp at hcontra

/-! ### Parser validity: parsed values are within their family's range -/

theorem hexVal_lt (c : Char) (h : isHexChar c = true) : hexVal c < 16 := by
  unfold isHexChar at h
  unfold hexVal
  simp only [Bool.or_eq_true, Bool.and_eq_true, decide_eq_true_eq] at h
  split
  · omega
  · split
    · omega
    · omega

theorem foldl_hex_lt (cs : List Char) (acc k : Nat) (hacc : acc < 16 ^ k)
    (hall : cs.all isHexChar = true) :
    cs.foldl (fun a c => a * 16 + hexVal c) acc < 16 ^ (k + cs.length) := by
  induction cs generalizing acc k with
  | nil => simpa using hacc
  | cons c cs ih =>
    rw [List.all_cons, Bool.and_eq_true] at hall
    have step : acc * 16 + hexVal c < 16 ^ (k + 1) := by
      have hh : hexVal c < 16 := hexVal_lt c hall.1
      calc acc * 16 + hexVal c < acc * 16 + 16 := by omega
        _ = (acc + 1) * 16 := by ring
        _ ≤ 16 ^ k * 16 := Nat.mul_le_mul_right 16 hacc
        _ = 16 ^ (k + 1) := by ring
    have := ih (acc * 16 + hexVal c) (k + 1) step hall.2
    have harr : k + 1 + cs.length = k + (cs.length + 1) := by omega
    rw [harr] at this
    simpa using this

theorem parseHexGroup_lt (cs : List Char) (g : Nat)
    (h : parseHexGroup cs = some g) : g < 2 ^ 16 := by
  unfold parseHexGroup at h
  split at h
  · exact absurd h (by simp)
  split at h
  · exact absurd h (by simp)
  split at h
  · exact absurd h (by simp)
  next h1 h2 h3 =>
    have hlen : cs.length ≤ 4 := by omega
    have hall : cs.all isHexChar = true := by simpa using h2
    have hb := foldl_hex_lt cs 0 0 (by norm_num) hall
    have hb2 : cs.foldl (fun a c => a * 16 + hexVal c) 0 < 16 ^ 4 :=
      Nat.lt_of_lt_of_le hb (Nat.pow_le_pow_right (by norm_num) (by omega))
    have : g = cs.foldl (fun a c => a * 16 + hexVal c) 0 := by
      injection h with h'
      exact h'.symm
    rw [this]
    calc cs.foldl (fun a c => a * 16 + hexVal c) 0 < 16 ^ 4 := hb2
      _ = 2 ^ 16 := by norm_num

theorem parseHexGroups_lt (parts : List (List Char)) (gs : List Nat)
    (h : parseHexGroups parts = some gs) : ∀ g ∈ gs, g < 2 ^ 16 := by
  induction parts generalizing gs with
  | nil =>
    unfold parseHexGroups at h
    injection h with h'
    subst h'
    simp
  | cons p ps ih =>
    unfold parseHexGroups at h
    cases hp : parseHexGroup p with
    | none => rw [hp] at h; exact absurd h (by simp)
    | some g0 =>
      rw [hp] at h
      cases hps : parseHexGroups ps with
      | none => rw [hps] at h; exact absurd h (by simp)
      | some gs0 =>
        rw [hps] at h
        injection h with h'
        subst h'
        intro g hg
        rcases List.mem_cons.mp hg with hg0 | hgs
        · subst hg0; exact parseHexGroup_lt p g hp
        · exact ih gs0 hps g hgs

theorem parseOctet_le (cs : List Char) (v : Nat)
    (h : parseOctet cs = some v) : v ≤ 255 := by
  unfold parseOctet at h
  split at h
  · exact absurd h (by simp)
  split at h
  · exact absurd h (by simp)
  split at h
  · exact absurd h (by simp)
  split at h
  · exact absurd h (by simp)
  split at h
  · next hle =>
    injection h with h'
    omega
  · exact absurd h (by simp)

theorem parseIpv4Addr_lt (cs : List Char) (a : Nat)
    (h : parseIpv4Addr cs = some a) : a < 2 ^ 32 := by
  unfold parseIpv4Addr at h
  split at h
  · next p1 p2 p3 p4 _ =>
    cases h1 : parseOctet p1 with
    | none => rw [h1] at h; exact absurd h (by simp)
    | some x =>
      cases h2 : parseOctet p2 with
      | none => rw [h1, h2] at h; exact absurd h (by simp)
      | some y =>
        cases h3 : parseOctet p3 with
        | none => rw [h1, h2, h3] at h; exact absurd h (by simp)
        | some z =>
          cases h4 : parseOctet p4 with
          | none => rw [h1, h2, h3, h4] at h; exact absurd h (by simp)
          | some w =>
            rw [h1, h2, h3, h4] at h
            injection h with h'
            have b1 := parseOctet_le p1 x h1
            have b2 := parseOctet_le p2 y h2
            have b3 := parseOctet_le p3 z h3
            have b4 := parseOctet_le p4 w h4
            subst h'
            have e1 : (2 : Nat) ^ 24 = 16777216 := by norm_num
            have e2 : (2 : Nat) ^ 16 = 65536 := by norm_num
            have e3 : (2 : Nat) ^ 8 = 256 := by norm_num
            have e4 : (2 : Nat) ^ 32 = 4294967296 := by norm_num
            rw [e1, e2, e3, e4]
            omega
  · exact absurd h (by simp)

theorem parseGroups_lt (parts : List (List Char)) (gs : List Nat)
    (h : parseGroups parts = some gs) : ∀ g ∈ gs, g < 2 ^ 16 := by
  unfold parseGroups at h
  split at h
  · injection h with h'
    subst h'
    simp
  · split at h
    · split at h
      · next v4 gs0 h1 h2 =>
        injection h with h'
        subst h'
        intro g hg
        have hv4 := parseIpv4Addr_lt _ v4 h1
        rcases List.mem_append.mp hg with hin | hin
        · exact parseHexGroups_lt _ _ h2 g hin
        · have e : (2 : Nat) ^ 16 = 65536 := by norm_num
          have e2 : (2 : Nat) ^ 32 = 4294967296 := by norm_num
          rw [e2] at hv4
          simp only [e, List.mem_cons, List.not_mem_nil, or_false] at hin ⊢
          rcases hin with hq | hq
          · subst hq; omega
          · subst hq; omega
      · exact Option.noConfusion h
    · exact parseHexGroups_lt parts gs h

theorem foldl_groups_lt (gs : List Nat) (acc k : Nat) (hacc : acc < 2 ^ k)
    (hall : ∀ g ∈ gs, g < 2 ^ 16) :
    gs.foldl (fun a g => a * 2 ^ 16 + g) acc < 2 ^ (k + 16 * gs.length) := by
  induction gs generalizing acc k with
  | nil => simpa using hacc
  | cons g gs ih =>
    have hg := hall g (List.mem_cons_self g gs)
    have step : acc * 2 ^ 16 + g < 2 ^ (k + 16) := by
      calc acc * 2 ^ 16 + g < acc * 2 ^ 16 + 2 ^ 16 := by omega
        _ = (acc + 1) * 2 ^ 16 := by ring
        _ ≤ 2 ^ k * 2 ^ 16 := Nat.mul_le_mul_right _ hacc
        _ = 2 ^ (k + 16) := by rw [Nat.pow_add]
    have hrec := ih (acc * 2 ^ 16 + g) (k + 16) step
      (fun x hx => hall x (List.mem_cons_of_mem g hx))
    have harr : k + 16 + 16 * gs.length = k + 16 * (gs.length + 1) := by ring
    rw [harr] at hrec
    simpa using hrec

theorem groupsToNat_lt (gs : List Nat) (hall : ∀ g ∈ gs, g < 2 ^ 16)
    (hlen : gs.length = 8) : groupsToNat gs < 2 ^ 128 := by
  have hb := foldl_groups_lt gs 0 0 (by norm_num) hall
  rw [hlen] at hb
  unfold groupsToNat
  simpa using hb

theorem ite_hexGroups_lt (l : List Char) (lgs : List Nat)
    (h : (if l = [] then some [] else parseHexGroups (splitOnChar ':' l)) = some lgs) :
    ∀ g ∈ lgs, g < 2 ^ 16 := by
  split at h
  · injection h with h'
    subst h'
    simp
  · exact parseHexGroups_lt _ _ h

theorem ite_groups_lt (r : List Char) (rgs : List Nat)
    (h : (if r = [] then some [] else parseGroups (splitOnChar ':' r)) = some rgs) :
    ∀ g ∈ rgs, g < 2 ^ 16 := by
  split at h
  · injection h with h'
    subst h'
    simp
  · exact parseGroups_lt _ _ h

theorem parseIpv6Addr_lt (cs : List Char) (a : Nat)
    (h : parseIpv6Addr cs = some a) : a < 2 ^ 128 := by
  unfold parseIpv6Addr at h
  split at h
  · split at h
    · next gs hgs =>
      split at h
      · next hlen =>
        injection h with h'
        subst h'
        exact groupsToNat_lt gs (parseGroups_lt _ _ hgs) hlen
      · exact Option.noConfusion h
    · exact Option.noConfusion h
  · split at h
    · exact Option.noConfusion h
    · split at h
      · next lgs rgs hl hr =>
        split at h
        · next hle =>
          injection h with h'
          subst h'
          apply groupsToNat_lt
          · intro g hg
            rcases List.mem_append.mp hg with hin | hin
            · rcases List.mem_append.mp hin with hin2 | hin2
              · exact ite_hexGroups_lt _ _ hl g hin2
              · rw [List.eq_of_mem_replicate hin2]
                norm_num
            · exact ite_groups_lt _ _ hr g hin
          · simp only [List.length_append, List.length_replicate]
            omega
        · exact Option.noConfusion h
      · exact Option.noConfusion h

theorem parseIpv4Network_valid (s : String) (n : Ipv4Network)
    (h : parseIpv4Network s = some n) : n.addr < 2 ^ 32 ∧ n.prefixLen ≤ 32 := by
  unfold parseIpv4Network at h
  split at h
  · next a _ =>
    cases hx : parseIpv4Addr a with
    | none => rw [hx] at h; exact Option.noConfusion h
    | some x =>
      rw [hx] at h
      injection h with h'
      subst h'
      exact ⟨parseIpv4Addr_lt a x hx, by norm_num⟩
  · next a p _ =>
    split at h
    · next x v hx hv =>
      split at h
      · next hle =>
        injection h with h'
        subst h'
        exact ⟨parseIpv4Addr_lt a x hx, hle⟩
      · exact Option.noConfusion h
    · exact Option.noConfusion h
  · exact Option.noConfusion h

theorem parseIpv6Network_valid (s : String) (n : Ipv6Network)
    (h : parseIpv6Network s = some n) : n.addr < 2 ^ 128 ∧ n.prefixLen ≤ 128 := by
  unfold parseIpv6Network at h
  split at h
  · next a _ =>
    cases hx : parseIpv6Addr a with
    | none => rw [hx] at h; exact Option.noConfusion h
    | some x =>
      rw [hx] at h
      injection h with h'
      subst h'
      exact ⟨parseIpv6Addr_lt a x hx, by norm_num⟩
  · next a p _ =>
    split at h
    · next x v hx hv =>
      split at h
      · next hle =>
        injection h with h'
        subst h'
        exact ⟨parseIpv6Addr_lt a x hx, hle⟩
      · exact Option.noConfusion h
    · exact Option.noConfusion h
  · exact Option.noConfusion h

theorem parseIpNetwork_valid (s : String) (n : IpNetwork)
    (h : parseIpNetwork s = some n) : validNet n := by
  unfold parseIpNetwork at h
  cases h4 : parseIpv4Network s with
  | some m =>
    rw [h4] at h
    injection h with h'
    subst h'
    exact parseIpv4Network_valid s m h4
  | none =>
    rw [h4] at h
    cases h6 : parseIpv6Network s with
    | none => rw [h6] at h; exact Option.noConfusion h
    | some m =>
      rw [h6] at h
      injection h with h'
      subst h'
      exact parseIpv6Network_valid s m h6

theorem parse_optional_network_valid (v : Option String) (n : IpNetwork)
    (h : parse_optional_network v = some n) : validNet n := by
  unfold parse_optional_network at h
  cases v with
  | none => exact Option.noConfusion h
  | some t => exact parseIpNetwork_valid t n h

/-! ### The mask test decides exactly address-set inclusion -/

theorem contains_ipv4_iff (s b : Ipv4Network)
    (hs : s.addr < 2 ^ 32 ∧ s.prefixLen ≤ 32)
    (hb : b.addr < 2 ^ 32 ∧ b.prefixLen ≤ 32) :
    contains_ipv4 s b = true ↔
      ∀ a, a < 2 ^ 32 →
        a &&& ipv4_prefix_mask b.prefixLen = Ipv4Network.network b →
        a &&& ipv4_prefix_mask s.prefixLen = Ipv4Network.network s := by
  have hcore := mask_contains_iff 32 s.prefixLen b.prefixLen s.addr b.addr hs.2 hb.2
  simp only [← ipv4_prefix_mask_eq] at hcore
  unfold contains_ipv4 Ipv4Network.network
  by_cases hc : s.prefixLen > b.prefixLen
  · rw [if_pos hc]
    constructor
    · intro hfalse
      exact absurd hfalse (by simp)
    · intro hall
      exact absurd (hcore.mpr hall).1 (by omega)
  · rw [if_neg hc]
    rw [beq_iff_eq]
    constructor
    · intro heq
      exact hcore.mp ⟨Nat.le_of_not_lt hc, heq⟩
    · intro hall
      exact (hcore.mpr hall).2

theorem contains_ipv6_iff (s b : Ipv6Network)
    (hs : s.addr < 2 ^ 128 ∧ s.prefixLen ≤ 128)
    (hb : b.addr < 2 ^ 128 ∧ b.prefixLen ≤ 128) :
    contains_ipv6 s b = true ↔
      ∀ a, a < 2 ^ 128 →
        a &&& ipv6_prefix_mask b.prefixLen = Ipv6Network.network b →
        a &&& ipv6_prefix_mask s.prefixLen = Ipv6Network.network s := by
  have hcore := mask_contains_iff 128 s.prefixLen b.prefixLen s.addr b.addr hs.2 hb.2
  simp only [← ipv6_prefix_mask_eq] at hcore
  unfold contains_ipv6 Ipv6Network.network
  by_cases hc : s.prefixLen > b.prefixLen
  · rw [if_pos hc]
    constructor
    · intro hfalse
      exact absurd hfalse (by simp)
    · intro hall
      exact absurd (hcore.mpr hall).1 (by omega)
  · rw [if_neg hc]
    rw [beq_iff_eq]
    constructor
    · intro heq
      exact hcore.mp ⟨Nat.le_of_not_lt hc, heq⟩
    · intro hall
      exact (hcore.mpr hall).2

/-- The containment primitive of the code decides exactly the spec-side
address-set inclusion, on well-formed operands (any family mix). -/
theorem network_contains_iff_spec (sup sub : IpNetwork)
    (hs : validNet sup) (hb : validNet sub) :
    network_contains sup sub = true ↔ specSubnetOf sub sup := by
  cases sup with
  | V4 s =>
    cases sub with
    | V4 b =>
      have hiff := contains_ipv4_iff s b hs hb
      constructor
      · intro h a hmem
        cases a with
        | V4 x =>
          obtain ⟨hx, hxe⟩ := hmem
          exact ⟨hx, (hiff.mp h) x hx hxe⟩
        | V6 x => exact False.elim hmem
      · intro h
        apply hiff.mpr
        intro a ha hae
        exact (h (IpAddr.V4 a) ⟨ha, hae⟩).2
    | V6 b =>
      constructor
      · intro h
        exact Bool.noConfusion h
      · intro h
        exfalso
        have hmem : specMember (IpAddr.V6 (Ipv6Network.network b)) (IpNetwork.V6 b) :=
          ⟨land_maskFn_lt b.addr 128 b.prefixLen,
            land_land_self b.addr (ipv6_prefix_mask b.prefixLen)⟩
        exact h _ hmem
  | V6 s =>
    cases sub with
    | V4 b =>
      constructor
      · intro h
        exact Bool.noConfusion h
      · intro h
        exfalso
        have hmem : specMember (IpAddr.V4 (Ipv4Network.network b)) (IpNetwork.V4 b) :=
          ⟨land_maskFn_lt b.addr 32 b.prefixLen,
            land_land_self b.addr (ipv4_prefix_mask b.prefixLen)⟩
        exact h _ hmem
    | V6 b =>
      have hiff := contains_ipv6_iff s b hs hb
      constructor
      · intro h a hmem
        cases a with
        | V6 x =>
          obtain ⟨hx, hxe⟩ := hmem
          exact ⟨hx, (hiff.mp h) x hx hxe⟩
        | V4 x => exact False.elim hmem
      · intro h
        apply hiff.mpr
        intro a ha hae
        exact (h (IpAddr.V6 a) ⟨ha, hae⟩).2

theorem contains_ipv4_self (n : Ipv4Network) : contains_ipv4 n n = true := by
  unfold contains_ipv4
  rw [if_neg (lt_irrefl n.prefixLen)]
  rw [beq_iff_eq]
  exact (land_land_self n.addr (ipv4_prefix_mask n.prefixLen)).symm

theorem contains_ipv6_self (n : Ipv6Network) : contains_ipv6 n n = true := by
  unfold contains_ipv6
  rw [if_neg (lt_irrefl n.prefixLen)]
  rw [beq_iff_eq]
  exact (land_land_self n.addr (ipv6_prefix_mask n.prefixLen)).symm

theorem network_contains_self (n : IpNetwork) : network_contains n n = true := by
  cases n with
  | V4 m => exact contains_ipv4_self m
  | V6 m => exact contains_ipv6_self m

/-! ### Row-level structure of the two column operations -/

theorem enumFrom_map_getElem? {α β : Type} (f : Nat → α → β) (l : List α) (n i : Nat) :
    ((l.enumFrom n).map (fun p => f p.1 p.2))[i]? = (l[i]?).map (fun a => f (n + i) a) := by
  induction l generalizing n i with
  | nil => simp
  | cons x xs ih =>
    cases i with
    | zero => simp [List.enumFrom]
    | succ j =>
      simp only [List.enumFrom, List.map_cons, List.getElem?_cons_succ]
      rw [ih (n + 1) j]
      have harr : n + 1 + j = n + (j + 1) := by omega
      rw [harr]

theorem enum_map_getElem? {α β : Type} (f : Nat → α → β) (l : List α) (i : Nat) :
    ((l.enum).map (fun p => f p.1 p.2))[i]? = (l[i]?).map (fun a => f i a) := by
  have := enumFrom_map_getElem? f l 0 i
  simpa using this

/-- Under a successful argument resolution, `cidr_contains` succeeds and
produces exactly the per-row map of the loop body. -/
theorem cidr_contains_ok (series arg : List (Option String))
    (needle : NetworkArgument) (out : List (Option Bool))
    (hres : resolve_network_argument arg "needle" series.length = Except.ok needle)
    (hout : cidr_contains [series, arg] = Except.ok out) :
    out = series.enum.map (fun p =>
      match parse_optional_network p.2, needle.value_at p.1 with
      | some network, some needle_network =>
        some (network_contains network needle_network)
      | _, _ => none) := by
  simp only [cidr_contains] at hout
  rw [hres] at hout
  injection hout with h'
  exact h'.symm

theorem cidr_contains_row (series arg : List (Option String))
    (needle : NetworkArgument) (out : List (Option Bool)) (idx : Nat)
    (hres : resolve_network_argument arg "needle" series.length = Except.ok needle)
    (hout : cidr_contains [series, arg] = Except.ok out) :
    out[idx]? = (series[idx]?).map (fun value =>
      match parse_optional_network value, needle.value_at idx with
      | some network, some needle_network =>
        some (network_contains network needle_network)
      | _, _ => none) := by
  rw [cidr_contains_ok series arg needle out hres hout]
  exact enum_map_getElem?
    (fun i v =>
      match parse_optional_network v, needle.value_at i with
      | some network, some needle_network =>
        some (network_contains network needle_network)
      | _, _ => none) series idx

theorem cidr_subnet_of_ok (series arg : List (Option String))
    (supernet : NetworkArgument) (out : List (Option Bool))
    (hres : resolve_network_argument arg "supernet" series.length = Except.ok supernet)
    (hout : cidr_subnet_of [series, arg] = Except.ok out) :
    out = series.enum.map (fun p =>
      match parse_optional_network p.2, supernet.value_at p.1 with
      | some network, some supernet_network =>
        some (network_contains supernet_network network)
      | _, _ => none) := by
  simp only [cidr_subnet_of] at hout
  rw [hres] at hout
  injection hout with h'
  exact h'.symm

theorem cidr_subnet_of_row (series arg : List (Option String))
    (supernet : NetworkArgument) (out : List (Option Bool)) (idx : Nat)
    (hres : resolve_network_argument arg "supernet" series.length = Except.ok supernet)
    (hout : cidr_subnet_of [series, arg] = Except.ok out) :
    out[idx]? = (series[idx]?).map (fun value =>
      match parse_optional_network value, supernet.value_at idx with
      | some network, some supernet_network =>
        some (network_contains supernet_network network)
      | _, _ => none) := by
  rw [cidr_subnet_of_ok series arg supernet out hres hout]
  exact enum_map_getElem?
    (fun i v =>
      match parse_optional_network v, supernet.value_at i with
      | some network, some supernet_network =>
        some (network_contains supernet_network network)
      | _, _ => none) series idx

/-- The argument role name only affects error messages, never a
successful resolution. -/
theorem resolve_ok_name_irrel (arg : List (Option String)) (a b : String)
    (len : Nat) (r : NetworkArgument)
    (h : resolve_network_argument arg a len = Except.ok r) :
    resolve_network_argument arg b len = Except.ok r := by
  unfold resolve_network_argument at h ⊢
  by_cases h1 : arg.length = 1
  · rw [if_pos h1] at h ⊢
    split at h
    · exact Except.noConfusion h
    · next v hv =>
      split at h
      · exact Except.noConfusion h
      · next n hn =>
        exact h
  · rw [if_neg h1] at h ⊢
    by_cases h2 : arg.length = len
    · rw [if_pos h2] at h ⊢
      exact h
    · rw [if_neg h2] at h
      exact Except.noConfusion h

/-- Every network delivered by a successfully resolved argument was
produced by the parser, hence is well-formed. -/
theorem resolve_value_valid (arg : List (Option String)) (name : String)
    (len : Nat) (needle : NetworkArgument) (idx : Nat) (m : IpNetwork)
    (h : resolve_network_argument arg name len = Except.ok needle)
    (hm : needle.value_at idx = some m) : validNet m := by
  unfold resolve_network_argument at h
  by_cases h1 : arg.length = 1
  · rw [if_pos h1] at h
    split at h
    · exact Except.noConfusion h
    · next v hv =>
      split at h
      · exact Except.noConfusion h
      · next n hn =>
        injection h with h'
        subst h'
        simp only [NetworkArgument.value_at] at hm
        injection hm with hm'
        subst hm'
        exact parseIpNetwork_valid v _ hn
  · rw [if_neg h1] at h
    by_cases h2 : arg.length = len
    · rw [if_pos h2] at h
      injection h with h'
      subst h'
      simp only [NetworkArgument.value_at] at hm
      rw [List.getElem?_map] at hm
      cases hv : arg[idx]? with
      | none =>
        rw [hv] at hm
        exact Option.noConfusion hm
      | some v =>
        rw [hv] at hm
        simp only [Option.map_some', Option.some_bind] at hm
        exact parse_optional_network_valid v m hm
    · rw [if_neg h2] at h
      exact Except.noConfusion h

/-- Resolution of a one-element argument column whose entry parses. -/
theorem resolve_singleton (v : String) (name : String) (len : Nat) (n : IpNetwork)
    (hp : parseIpNetwork v = some n) :
    resolve_network_argument [some v] name len =
      Except.ok (NetworkArgument.Literal n) := by
  unfold resolve_network_argument
  rw [if_pos (by simp)]
  show (match parseIpNetwork v with
    | none => Except.error (PolarsError.ComputeError
        ("invalid " ++ name ++ " CIDR '" ++ v ++ "'"))
    | some network => Except.ok (NetworkArgument.Literal network)) =
    Except.ok (NetworkArgument.Literal n)
  rw [hp]

theorem cidr_contains_singleton (a b : String) (na nb : IpNetwork)
    (ha : parseIpNetwork a = some na) (hb : parseIpNetwork b = some nb) :
    cidr_contains [[some a], [some b]] =
      Except.ok [some (network_contains na nb)] := by
  simp only [cidr_contains]
  rw [resolve_singleton b "needle" ([some a] : List (Option String)).length nb hb]
  simp [List.enum, List.enumFrom, parse_optional_network, ha,
    NetworkArgument.value_at]

theorem cidr_subnet_of_singleton (a b : String) (na nb : IpNetwork)
    (ha : parseIpNetwork a = some na) (hb : parseIpNetwork b = some nb) :
    cidr_subnet_of [[some a], [some b]] =
      Except.ok [some (network_contains nb na)] := by
  simp only [cidr_subnet_of]
  rw [resolve_singleton b "supernet" ([some a] : List (Option String)).length nb hb]
  simp [List.enum, List.enumFrom, parse_optional_network, ha,
    NetworkArgument.value_at]

/-! ### Claim theorems -/

/-- C1 counterexample: on the code, `contains("10.0.0.0/24", "10.0.0.0/16")`
is `false`, not `true` as the claim states (and the reverse call is `true`,
not `false`): the operand roles are the opposite of the claim's. -/
theorem C1_counterexample :
    ¬ (cidr_contains [[some "10.0.0.0/24"], [some "10.0.0.0/16"]] =
        Except.ok [some true]) ∧
    cidr_contains [[some "10.0.0.0/24"], [some "10.0.0.0/16"]] =
      Except.ok [some false] ∧
    cidr_contains [[some "10.0.0.0/16"], [some "10.0.0.0/24"]] =
      Except.ok [some true] := by
  refine ⟨by decide, by decide, by decide⟩

/-- C1 (amended): for every row whose text parses to a network and whose
resolved argument network is present, the contains operation returns true
exactly when the corresponding resolved argument network is contained
within the row's parsed network (the row value acts as supernet, the
argument as subnet); in particular `contains("10.0.0.0/24", "10.0.0.0/16")`
is false and `contains("10.0.0.0/16", "10.0.0.0/24")` is true. -/
theorem C1_contains_decides_argument_within_row :
    (∀ (series arg : List (Option String)) (needle : NetworkArgument)
        (out : List (Option Bool)) (idx : Nat) (value : Option String)
        (network needleNet : IpNetwork),
      resolve_network_argument arg "needle" series.length = Except.ok needle →
      cidr_contains [series, arg] = Except.ok out →
      series[idx]? = some value →
      parse_optional_network value = some network →
      needle.value_at idx = some needleNet →
      (out[idx]? = some (some true) ↔ specSubnetOf needleNet network)) ∧
    cidr_contains [[some "10.0.0.0/24"], [some "10.0.0.0/16"]] =
      Except.ok [some false] ∧
    cidr_contains [[some "10.0.0.0/16"], [some "10.0.0.0/24"]] =
      Except.ok [some true] := by
  refine ⟨?_, by decide, by decide⟩
  intro series arg needle out idx value network needleNet hres hout hval hp hm
  have hrow := cidr_contains_row series arg needle out idx hres hout
  rw [hval] at hrow
  simp only [Option.map_some', hp, hm] at hrow
  rw [hrow]
  have hvalid1 : validNet network := parse_optional_network_valid value network hp
  have hvalid2 : validNet needleNet :=
    resolve_value_valid arg "needle" series.length needle idx needleNet hres hm
  simp only [Option.some.injEq]
  exact network_contains_iff_spec network needleNet hvalid1 hvalid2

/-- C1 witness: the general row statement applied to the single-row call
`contains("10.0.0.0/16", "10.0.0.0/24")`, whose output row is true, and
indeed 10.0.0.0/24 is contained within 10.0.0.0/16. -/
theorem C1_witness :
    ([some true] : List (Option Bool))[0]? = some (some true) ↔
      specSubnetOf (IpNetwork.V4 ⟨167772160, 24⟩) (IpNetwork.V4 ⟨167772160, 16⟩) :=
  C1_contains_decides_argument_within_row.1
    [some "10.0.0.0/16"] [some "10.0.0.0/24"]
    (NetworkArgument.Literal (IpNetwork.V4 ⟨167772160, 24⟩))
    [some true] 0 (some "10.0.0.0/16")
    (IpNetwork.V4 ⟨167772160, 16⟩) (IpNetwork.V4 ⟨167772160, 24⟩)
    (by decide) (by decide) (by decide) (by decide) (by decide)

/-- C2 (confirmed): both public operations are parametrized over the
single containment primitive by operand role: at every row, contains
evaluates the row's network as the supernet argument of the primitive and
the resolved argument as the subnet, while subnet_of evaluates the row's
network as the subnet and the resolved argument as the supernet. -/
theorem C2_operand_roles :
    ∀ (series arg : List (Option String)) (needle sup : NetworkArgument)
      (out1 out2 : List (Option Bool)) (idx : Nat) (value : Option String)
      (n m : IpNetwork),
      resolve_network_argument arg "needle" series.length = Except.ok needle →
      resolve_network_argument arg "supernet" series.length = Except.ok sup →
      cidr_contains [series, arg] = Except.ok out1 →
      cidr_subnet_of [series, arg] = Except.ok out2 →
      series[idx]? = some value →
      parse_optional_network value = some n →
      needle.value_at idx = some m →
      out1[idx]? = some (some (network_contains n m)) ∧
      out2[idx]? = some (some (network_contains m n)) := by
  intro series arg needle sup out1 out2 idx value n m hres1 hres2 hout1 hout2 hval hp hm
  have hname := resolve_ok_name_irrel arg "needle" "supernet" series.length needle hres1
  rw [hname] at hres2
  injection hres2 with hsup
  subst hsup
  constructor
  · have hrow := cidr_contains_row series arg needle out1 idx hres1 hout1
    rw [hval] at hrow
    simp only [Option.map_some', hp, hm] at hrow
    exact hrow
  · have hrow := cidr_subnet_of_row series arg needle out2 idx hname hout2
    rw [hval] at hrow
    simp only [Option.map_some', hp, hm] at hrow
    exact hrow

/-- C2 witness: the role statement applied to the single-row call with
row 10.0.0.0/24 and argument 10.0.0.0/16. -/
theorem C2_witness :
    ([some false] : List (Option Bool))[0]? =
      some (some (network_contains (IpNetwork.V4 ⟨167772160, 24⟩)
        (IpNetwork.V4 ⟨167772160, 16⟩))) ∧
    ([some true] : List (Option Bool))[0]? =
      some (some (network_contains (IpNetwork.V4 ⟨167772160, 16⟩)
        (IpNetwork.V4 ⟨167772160, 24⟩))) :=
  C2_operand_roles [some "10.0.0.0/24"] [some "10.0.0.0/16"]
    (NetworkArgument.Literal (IpNetwork.V4 ⟨167772160, 16⟩))
    (NetworkArgument.Literal (IpNetwork.V4 ⟨167772160, 16⟩))
    [some false] [some true] 0 (some "10.0.0.0/24")
    (IpNetwork.V4 ⟨167772160, 24⟩) (IpNetwork.V4 ⟨167772160, 16⟩)
    (by decide) (by decide) (by decide) (by decide) (by decide) (by decide)
    (by decide)

/-- C3 counterexample: on the code, `contains(A, "0.0.0.0/0")` is false
for the valid IPv4 address 10.0.0.1 (and `contains(B, "::/0")` is false
for the valid IPv6 address 2001:db8::1): the row operand is the supernet,
so a host row is never reported as containing the whole address space. -/
theorem C3_counterexample :
    ¬ (cidr_contains [[some "10.0.0.1"], [some "0.0.0.0/0"]] =
        Except.ok [some true]) ∧
    cidr_contains [[some "10.0.0.1"], [some "0.0.0.0/0"]] =
      Except.ok [some false] ∧
    cidr_contains [[some "2001:db8::1"], [some "::/0"]] =
      Except.ok [some false] := by
  refine ⟨by decide, by decide, by decide⟩

/-- C3 (amended): zero-prefix universality holds with the operands
swapped: for every valid IPv4 address or network A,
`contains("0.0.0.0/0", A)` is true, and for every valid IPv6 address or
network B, `contains("::/0", B)` is true — a prefix length of 0 yields an
all-zero mask, so a zero-prefix row network contains every network of its
family. -/
theorem C3_zero_prefix_universality :
    (∀ (s : String) (n : Ipv4Network),
      parseIpNetwork s = some (IpNetwork.V4 n) →
      cidr_contains [[some "0.0.0.0/0"], [some s]] = Except.ok [some true]) ∧
    (∀ (s : String) (n : Ipv6Network),
      parseIpNetwork s = some (IpNetwork.V6 n) →
      cidr_contains [[some "::/0"], [some s]] = Except.ok [some true]) ∧
    ipv4_prefix_mask 0 = 0 ∧ ipv6_prefix_mask 0 = 0 := by
  refine ⟨?_, ?_, rfl, rfl⟩
  · intro s n hp
    rw [cidr_contains_singleton "0.0.0.0/0" s (IpNetwork.V4 ⟨0, 0⟩)
      (IpNetwork.V4 n) (by decide) hp]
    have hzero : contains_ipv4 ⟨0, 0⟩ n = true := by
      unfold contains_ipv4
      rw [if_neg (by simp)]
      rw [beq_iff_eq]
      show Ipv4Network.network ⟨0, 0⟩ =
        Ipv4Network.network n &&& ipv4_prefix_mask (0 : Nat)
      simp [Ipv4Network.network, ipv4_prefix_mask]
    show Except.ok [some (contains_ipv4 ⟨0, 0⟩ n)] =
      (Except.ok [some true] : Except PolarsError (List (Option Bool)))
    rw [hzero]
  · intro s n hp
    rw [cidr_contains_singleton "::/0" s (IpNetwork.V6 ⟨0, 0⟩)
      (IpNetwork.V6 n) (by decide) hp]
    have hzero : contains_ipv6 ⟨0, 0⟩ n = true := by
      unfold contains_ipv6
      rw [if_neg (by simp)]
      rw [beq_iff_eq]
      show Ipv6Network.network ⟨0, 0⟩ =
        Ipv6Network.network n &&& ipv6_prefix_mask (0 : Nat)
      simp [Ipv6Network.network, ipv6_prefix_mask]
    show Except.ok [some (contains_ipv6 ⟨0, 0⟩ n)] =
      (Except.ok [some true] : Except PolarsError (List (Option Bool)))
    rw [hzero]

/-- C3 witness: the amended universality applied to the concrete host
addresses 10.0.0.1 and 2001:db8::1. -/
theorem C3_witness :
    cidr_contains [[some "0.0.0.0/0"], [some "10.0.0.1"]] =
      Except.ok [some true] ∧
    cidr_contains [[some "::/0"], [some "2001:db8::1"]] =
      Except.ok [some true] :=
  ⟨C3_zero_prefix_universality.1 "10.0.0.1" ⟨167772161, 32⟩ (by decide),
   C3_zero_prefix_universality.2.1 "2001:db8::1"
     ⟨8193 * 2 ^ 112 + 3512 * 2 ^ 96 + 1, 128⟩ (by decide)⟩

/-- C5 (confirmed): for all well-formed same-family networks A and B,
`subnet_of(A, B)` returns the same result as `contains(B, A)` — the two
operations are dual. -/
theorem C5_duality (a b : String) (na nb : IpNetwork)
    (ha : parseIpNetwork a = some na) (hb : parseIpNetwork b = some nb)
    (_hfam : sameFamily na nb = true) :
    cidr_subnet_of [[some a], [some b]] = cidr_contains [[some b], [some a]] := by
  rw [cidr_subnet_of_singleton a b na nb ha hb,
    cidr_contains_singleton b a nb na hb ha]

/-- C5 witness: duality at A = 10.0.0.0/24, B = 10.0.0.0/16. -/
theorem C5_witness :
    cidr_subnet_of [[some "10.0.0.0/24"], [some "10.0.0.0/16"]] =
      cidr_contains [[some "10.0.0.0/16"], [some "10.0.0.0/24"]] :=
  C5_duality "10.0.0.0/24" "10.0.0.0/16"
    (IpNetwork.V4 ⟨167772160, 24⟩) (IpNetwork.V4 ⟨167772160, 16⟩)
    (by decide) (by decide) (by decide)

/-- C6 (confirmed): for every valid network N of either family,
`contains(N, N)` is true (reflexivity of containment). -/
theorem C6_reflexivity (s : String) (n : IpNetwork)
    (h : parseIpNetwork s = some n) :
    cidr_contains [[some s], [some s]] = Except.ok [some true] := by
  rw [cidr_contains_singleton s s n n h h]
  rw [network_contains_self]

/-- C6 witness: reflexivity at N = 10.0.0.0/24. -/
theorem C6_witness :
    cidr_contains [[some "10.0.0.0/24"], [some "10.0.0.0/24"]] =
      Except.ok [some true] :=
  C6_reflexivity "10.0.0.0/24" (IpNetwork.V4 ⟨167772160, 24⟩) (by decide)

/-- C7 (confirmed): whenever one operand is IPv4 and the other IPv6, the
containment primitive returns the determinate boolean false (never null,
never an error), and in particular
`contains("2001:db8::/32", "10.0.0.0/8")` yields the row value false. -/
theorem C7_family_mismatch :
    (∀ (n4 : Ipv4Network) (n6 : Ipv6Network),
      network_contains (IpNetwork.V4 n4) (IpNetwork.V6 n6) = false ∧
      network_contains (IpNetwork.V6 n6) (IpNetwork.V4 n4) = false) ∧
    cidr_contains [[some "2001:db8::/32"], [some "10.0.0.0/8"]] =
      Except.ok [some false] :=
  ⟨fun n4 n6 => ⟨rfl, rfl⟩, by decide⟩

/-- C8 (confirmed): whenever the input value at a row is null or fails to
parse, or the resolved per-row argument value at that row is absent, the
output at that row is null; the call still succeeds over the whole
column (no error, full length) and every other row is still evaluated. -/
theorem C8_row_failure_yields_null (series arg : List (Option String))
    (needle : NetworkArgument) (idx : Nat) (value : Option String)
    (hres : resolve_network_argument arg "needle" series.length = Except.ok needle)
    (hval : series[idx]? = some value)
    (hfail : parse_optional_network value = none ∨ needle.value_at idx = none) :
    ∃ out, cidr_contains [series, arg] = Except.ok out ∧
      out.length = series.length ∧
      out[idx]? = some none ∧
      (∀ (j : Nat) (w : Option String) (n m : IpNetwork),
        series[j]? = some w → parse_optional_network w = some n →
        needle.value_at j = some m →
        out[j]? = some (some (network_contains n m))) := by
  have hout : cidr_contains [series, arg] = Except.ok (series.enum.map (fun p =>
      match parse_optional_network p.2, needle.value_at p.1 with
      | some network, some needle_network =>
        some (network_contains network needle_network)
      | _, _ => none)) := by
    simp only [cidr_contains]
    rw [hres]
  refine ⟨_, hout, ?_, ?_, ?_⟩
  · rw [List.length_map, List.enum_length]
  · have hrow := cidr_contains_row series arg needle _ idx hres hout
    rw [hval] at hrow
    simp only [Option.map_some'] at hrow
    rw [hrow]
    rcases hfail with hf | hf
    · simp [hf]
    · cases hpv : parse_optional_network value with
      | none => simp [hpv]
      | some n => simp [hpv, hf]
  · intro j w n m hjv hjp hjm
    have hrow := cidr_contains_row series arg needle _ j hres hout
    rw [hjv] at hrow
    simp only [Option.map_some', hjp, hjm] at hrow
    exact hrow

/-- C8 witness: a two-row call with an unparsable first row: the result
is a full-length column with null at row 0, the other row evaluated. -/
theorem C8_witness :
    ∃ out, cidr_contains
        [[some "not-an-ip", some "10.0.0.5/32"], [some "10.0.0.0/8"]] =
        Except.ok out ∧
      out.length =
        ([some "not-an-ip", some "10.0.0.5/32"] : List (Option String)).length ∧
      out[0]? = some none ∧
      (∀ (j : Nat) (w : Option String) (n m : IpNetwork),
        ([some "not-an-ip", some "10.0.0.5/32"] :
          List (Option String))[j]? = some w →
        parse_optional_network w = some n →
        (NetworkArgument.Literal (IpNetwork.V4 ⟨167772160, 8⟩)).value_at j =
          some m →
        out[j]? = some (some (network_contains n m))) :=
  C8_row_failure_yields_null [some "not-an-ip", some "10.0.0.5/32"]
    [some "10.0.0.0/8"] (NetworkArgument.Literal (IpNetwork.V4 ⟨167772160, 8⟩))
    0 (some "not-an-ip") (by decide) (by decide) (Or.inl (by decide))

/-- C9 (confirmed): when the argument column has exactly one entry and
that entry is null or fails to parse, the whole call fails with an error
naming the "needle" argument role, and produces no output rows at all. -/
theorem C9_literal_failure_aborts (series arg : List (Option String))
    (hlen : arg.length = 1)
    (hfail : parse_optional_network (arg.getD 0 none) = none) :
    (∀ out, cidr_contains [series, arg] ≠ Except.ok out) ∧
    cidr_contains [series, arg] = Except.error
      (match arg.getD 0 none with
       | none => PolarsError.ComputeError "needle argument cannot be null"
       | some v =>
         PolarsError.ComputeError ("invalid needle CIDR '" ++ v ++ "'")) := by
  cases hget : arg.getD 0 none with
  | none =>
    have herr : resolve_network_argument arg "needle" series.length =
        Except.error (PolarsError.ComputeError "needle argument cannot be null") := by
      unfold resolve_network_argument
      rw [if_pos hlen, hget]
      rfl
    constructor
    · intro out hc
      simp only [cidr_contains] at hc
      rw [herr] at hc
      exact Except.noConfusion hc
    · simp only [cidr_contains]
      rw [herr]
  | some v =>
    rw [hget] at hfail
    have hpv : parseIpNetwork v = none := hfail
    have herr : resolve_network_argument arg "needle" series.length =
        Except.error (PolarsError.ComputeError
          ("invalid needle CIDR '" ++ v ++ "'")) := by
      unfold resolve_network_argument
      rw [if_pos hlen, hget]
      show (match parseIpNetwork v with
        | none => Except.error (PolarsError.ComputeError
            ("invalid " ++ "needle" ++ " CIDR '" ++ v ++ "'"))
        | some network => Except.ok (NetworkArgument.Literal network)) =
        Except.error (PolarsError.ComputeError
          ("invalid needle CIDR '" ++ v ++ "'"))
      rw [hpv]
      rfl
    constructor
    · intro out hc
      simp only [cidr_contains] at hc
      rw [herr] at hc
      exact Except.noConfusion hc
    · simp only [cidr_contains]
      rw [herr]

/-- C9 witness: a malformed literal argument aborts the whole call with
the role-naming error and yields no output rows. -/
theorem C9_witness :
    (∀ out, cidr_contains [[some "10.0.0.1"], [some "bad/cidr"]] ≠
      Except.ok out) ∧
    cidr_contains [[some "10.0.0.1"], [some "bad/cidr"]] =
      Except.error (PolarsError.ComputeError "invalid needle CIDR 'bad/cidr'") :=
  C9_literal_failure_aborts [some "10.0.0.1"] [some "bad/cidr"]
    (by decide) (by decide)

/-- C10 (confirmed): the containment primitive depends only on each
operand's prefix length and its address masked down to that prefix (it
recomputes the mask at comparison time): replacing either operand's
stored address by any address with the same masked network value leaves
the result unchanged, so containment is computed correctly even when a
stored address retains host bits. -/
theorem C10_network_invariance :
    (∀ s s' b b' : Ipv4Network,
      Ipv4Network.network s = Ipv4Network.network s' →
      s.prefixLen = s'.prefixLen →
      Ipv4Network.network b = Ipv4Network.network b' →
      b.prefixLen = b'.prefixLen →
      contains_ipv4 s b = contains_ipv4 s' b') ∧
    (∀ s s' b b' : Ipv6Network,
      Ipv6Network.network s = Ipv6Network.network s' →
      s.prefixLen = s'.prefixLen →
      Ipv6Network.network b = Ipv6Network.network b' →
      b.prefixLen = b'.prefixLen →
      contains_ipv6 s b = contains_ipv6 s' b') := by
  constructor
  · intro s s' b b' hns hps hnb hpb
    unfold contains_ipv4
    rw [hns, hps, hnb, hpb]
  · intro s s' b b' hns hps hnb hpb
    unfold contains_ipv6
    rw [hns, hps, hnb, hpb]

/-- C10 witness: 10.0.0.1/24 and 10.0.0.10/24 behave exactly like the
normalized 10.0.0.0/24 on either side of the primitive. -/
theorem C10_witness :
    contains_ipv4 ⟨167772161, 24⟩ ⟨167772170, 24⟩ =
      contains_ipv4 ⟨167772160, 24⟩ ⟨167772160, 24⟩ :=
  C10_network_invariance.1 ⟨167772161, 24⟩ ⟨167772160, 24⟩
    ⟨167772170, 24⟩ ⟨167772160, 24⟩
    (by decide) (by decide) (by decide) (by decide)

/-- C4 counterexample: parsing "10.0.0.1/24" stores base address
10.0.0.1 (decimal 167772161) with the host bits intact, while the
network boundary at /24 is 10.0.0.0 (decimal 167772160): the parser does
not strip host bits. -/
theorem C4_counterexample :
    parseIpNetwork "10.0.0.1/24" = some (IpNetwork.V4 ⟨167772161, 24⟩) ∧
    Ipv4Network.network ⟨167772161, 24⟩ = 167772160 ∧
    (167772161 : Nat) ≠ 167772160 := by
  refine ⟨by decide, by decide, by decide⟩

/-- C4 (amended): for every text that the parser accepts, the returned
network value's base address is the address exactly as typed (host bits
preserved, not stripped by the parser); the network-boundary address is
derived by masking at comparison time through the network accessor, and
the containment primitive treats a parsed value exactly like its
normalized form; e.g. parsing "10.0.0.1/24" yields base address 10.0.0.1
whose derived network boundary is 10.0.0.0. -/
theorem C4_parser_preserves_typed_address :
    parseIpNetwork "10.0.0.1/24" = some (IpNetwork.V4 ⟨167772161, 24⟩) ∧
    Ipv4Network.network ⟨167772161, 24⟩ = 167772160 ∧
    (∀ n b : Ipv4Network,
      contains_ipv4 n b =
        contains_ipv4 ⟨Ipv4Network.network n, n.prefixLen⟩ b ∧
      contains_ipv4 b n =
        contains_ipv4 b ⟨Ipv4Network.network n, n.prefixLen⟩) ∧
    (∀ n b : Ipv6Network,
      contains_ipv6 n b =
        contains_ipv6 ⟨Ipv6Network.network n, n.prefixLen⟩ b ∧
      contains_ipv6 b n =
        contains_ipv6 b ⟨Ipv6Network.network n, n.prefixLen⟩) := by
  refine ⟨by decide, by decide, ?_, ?_⟩
  · intro n b
    have hnet : Ipv4Network.network ⟨Ipv4Network.network n, n.prefixLen⟩ =
        Ipv4Network.network n := land_land_self n.addr _
    constructor
    · simp [contains_ipv4, hnet]
    · simp [contains_ipv4, hnet]
  · intro n b
    have hnet : Ipv6Network.network ⟨Ipv6Network.network n, n.prefixLen⟩ =
        Ipv6Network.network n := land_land_self n.addr _
    constructor
    · simp [contains_ipv6, hnet]
    · simp [contains_ipv6, hnet]
